import Mathlib

/-!
Verification of the width-aware UTF-8 text processing module
(`kitchen/text/utf8.py`): a shallow embedding of the byte-level decoder,
the codepoint width classifier, the width/chop/fill calculators and the
paragraph wrapper, together with theorems settling the specification
claims.  Byte strings are modelled as `List Nat` (each element one byte,
0..255); Python integers are `Int` where negative values can occur
(display widths) and `Nat` where they cannot (byte counts, codepoints).
-/

set_option maxRecDepth 10000

/-- Sorted list of non-overlapping intervals of non-spacing characters,
verbatim from the `_combining` table in the source. -/
def _combining : List (Nat × Nat) :=
  [ (0x0300, 0x036F), (0x0483, 0x0486), (0x0488, 0x0489),
    (0x0591, 0x05BD), (0x05BF, 0x05BF), (0x05C1, 0x05C2),
    (0x05C4, 0x05C5), (0x05C7, 0x05C7), (0x0600, 0x0603),
    (0x0610, 0x0615), (0x064B, 0x065E), (0x0670, 0x0670),
    (0x06D6, 0x06E4), (0x06E7, 0x06E8), (0x06EA, 0x06ED),
    (0x070F, 0x070F), (0x0711, 0x0711), (0x0730, 0x074A),
    (0x07A6, 0x07B0), (0x07EB, 0x07F3), (0x0901, 0x0902),
    (0x093C, 0x093C), (0x0941, 0x0948), (0x094D, 0x094D),
    (0x0951, 0x0954), (0x0962, 0x0963), (0x0981, 0x0981),
    (0x09BC, 0x09BC), (0x09C1, 0x09C4), (0x09CD, 0x09CD),
    (0x09E2, 0x09E3), (0x0A01, 0x0A02), (0x0A3C, 0x0A3C),
    (0x0A41, 0x0A42), (0x0A47, 0x0A48), (0x0A4B, 0x0A4D),
    (0x0A70, 0x0A71), (0x0A81, 0x0A82), (0x0ABC, 0x0ABC),
    (0x0AC1, 0x0AC5), (0x0AC7, 0x0AC8), (0x0ACD, 0x0ACD),
    (0x0AE2, 0x0AE3), (0x0B01, 0x0B01), (0x0B3C, 0x0B3C),
    (0x0B3F, 0x0B3F), (0x0B41, 0x0B43), (0x0B4D, 0x0B4D),
    (0x0B56, 0x0B56), (0x0B82, 0x0B82), (0x0BC0, 0x0BC0),
    (0x0BCD, 0x0BCD), (0x0C3E, 0x0C40), (0x0C46, 0x0C48),
    (0x0C4A, 0x0C4D), (0x0C55, 0x0C56), (0x0CBC, 0x0CBC),
    (0x0CBF, 0x0CBF), (0x0CC6, 0x0CC6), (0x0CCC, 0x0CCD),
    (0x0CE2, 0x0CE3), (0x0D41, 0x0D43), (0x0D4D, 0x0D4D),
    (0x0DCA, 0x0DCA), (0x0DD2, 0x0DD4), (0x0DD6, 0x0DD6),
    (0x0E31, 0x0E31), (0x0E34, 0x0E3A), (0x0E47, 0x0E4E),
    (0x0EB1, 0x0EB1), (0x0EB4, 0x0EB9), (0x0EBB, 0x0EBC),
    (0x0EC8, 0x0ECD), (0x0F18, 0x0F19), (0x0F35, 0x0F35),
    (0x0F37, 0x0F37), (0x0F39, 0x0F39), (0x0F71, 0x0F7E),
    (0x0F80, 0x0F84), (0x0F86, 0x0F87), (0x0F90, 0x0F97),
    (0x0F99, 0x0FBC), (0x0FC6, 0x0FC6), (0x102D, 0x1030),
    (0x1032, 0x1032), (0x1036, 0x1037), (0x1039, 0x1039),
    (0x1058, 0x1059), (0x1160, 0x11FF), (0x135F, 0x135F),
    (0x1712, 0x1714), (0x1732, 0x1734), (0x1752, 0x1753),
    (0x1772, 0x1773), (0x17B4, 0x17B5), (0x17B7, 0x17BD),
    (0x17C6, 0x17C6), (0x17C9, 0x17D3), (0x17DD, 0x17DD),
    (0x180B, 0x180D), (0x18A9, 0x18A9), (0x1920, 0x1922),
    (0x1927, 0x1928), (0x1932, 0x1932), (0x1939, 0x193B),
    (0x1A17, 0x1A18), (0x1B00, 0x1B03), (0x1B34, 0x1B34),
    (0x1B36, 0x1B3A), (0x1B3C, 0x1B3C), (0x1B42, 0x1B42),
    (0x1B6B, 0x1B73), (0x1DC0, 0x1DCA), (0x1DFE, 0x1DFF),
    (0x200B, 0x200F), (0x202A, 0x202E), (0x2060, 0x2063),
    (0x206A, 0x206F), (0x20D0, 0x20EF), (0x302A, 0x302F),
    (0x3099, 0x309A), (0xA806, 0xA806), (0xA80B, 0xA80B),
    (0xA825, 0xA826), (0xFB1E, 0xFB1E), (0xFE00, 0xFE0F),
    (0xFE20, 0xFE23), (0xFEFF, 0xFEFF), (0xFFF9, 0xFFFB),
    (0x10A01, 0x10A03), (0x10A05, 0x10A06), (0x10A0C, 0x10A0F),
    (0x10A38, 0x10A3A), (0x10A3F, 0x10A3F), (0x1D167, 0x1D169),
    (0x1D173, 0x1D182), (0x1D185, 0x1D18B), (0x1D1AA, 0x1D1AD),
    (0x1D242, 0x1D244), (0xE0001, 0xE0001), (0xE0020, 0xE007F),
    (0xE0100, 0xE01EF) ]

/-- The `while max >= min` loop of `_utf8_bisearch`.  Indices are `Int`
because Python lets `max` drop to `-1` before the loop condition fails;
`Int.ediv` is Python's floor division (both operands are non-negative at
every reachable call, so any division convention coincides).  The first
argument is an iteration budget that only makes the recursion structural
(so that the kernel can evaluate it); since the interval `[lo, hi]`
strictly shrinks every iteration, any budget of at least the initial
interval size never runs out — `_utf8_bisearch_loop_fuel` below proves
the budget is irrelevant beyond that bound. -/
def _utf8_bisearch_loop (ucs : Nat) (table : List (Nat × Nat)) :
    Nat → Int → Int → Bool
  | 0, _, _ => false
  | fuel + 1, lo, hi =>
    if hi ≥ lo then
      let mid : Int := Int.ediv (lo + hi) 2
      let p := table.getD mid.toNat (0, 0)
      if ucs > p.2 then _utf8_bisearch_loop ucs table fuel (mid + 1) hi
      else if ucs < p.1 then _utf8_bisearch_loop ucs table fuel lo (mid - 1)
      else true
    else false

/-- Auxiliary function for binary search in an interval table
(`_utf8_bisearch` in the source).  The `table.length = 0` guard only
totalizes the model (Python would fault indexing an empty table; the one
table ever passed is non-empty). -/
def _utf8_bisearch (ucs : Nat) (table : List (Nat × Nat)) : Bool :=
  if table.length = 0 then false
  else if ucs < (table.getD 0 (0, 0)).1 ∨ ucs > (table.getD (table.length - 1) (0, 0)).2 then
    false
  else
    _utf8_bisearch_loop ucs table (table.length + 1) 0 (table.length - 1)

/-- Textual width of a single ucs codepoint (`_utf8_ucp_width`). -/
def _utf8_ucp_width (ucs : Nat) : Int :=
  if ucs = 0 then 0
  else if ucs < 32 ∨ (ucs ≥ 0x7f ∧ ucs < 0xa0) then -1
  else if _utf8_bisearch ucs _combining then 0
  else
    1 + (if ucs ≥ 0x1100 ∧
            (ucs ≤ 0x115f ∨
             ucs = 0x2329 ∨ ucs = 0x232a ∨
             (ucs ≥ 0x2e80 ∧ ucs ≤ 0xa4cf ∧ ucs ≠ 0x303f) ∨
             (ucs ≥ 0xac00 ∧ ucs ≤ 0xd7a3) ∨
             (ucs ≥ 0xf900 ∧ ucs ≤ 0xfaff) ∨
             (ucs ≥ 0xfe10 ∧ ucs ≤ 0xfe19) ∨
             (ucs ≥ 0xfe30 ∧ ucs ≤ 0xfe6f) ∨
             (ucs ≥ 0xff00 ∧ ucs ≤ 0xff60) ∨
             (ucs ≥ 0xffe0 ∧ ucs ≤ 0xffe6) ∨
             (ucs ≥ 0x20000 ∧ ucs ≤ 0x2fffd) ∨
             (ucs ≥ 0x30000 ∧ ucs ≤ 0x3fffd))
         then 1 else 0)

/-- Test `(byte0 & 0xe0) == 0xc0`: lead byte of a 2-byte sequence. -/
def lead2 (b0 : Nat) : Bool := b0 &&& 0xe0 == 0xc0

/-- Test `(byte0 & 0xf0) == 0xe0`: lead byte of a 3-byte sequence. -/
def lead3 (b0 : Nat) : Bool := b0 &&& 0xf0 == 0xe0

/-- Test `(byte0 & 0xf8) == 0xf0`: lead byte of a 4-byte sequence. -/
def lead4 (b0 : Nat) : Bool := b0 &&& 0xf8 == 0xf0

/-- The 2-byte rejection test: bad continuation byte, or overlong. -/
def bad2 (b0 b1 : Nat) : Bool :=
  b1 &&& 0xc0 != 0x80 || b0 &&& 0xfe == 0xc0

/-- Codepoint assembled from a valid 2-byte sequence. -/
def cp2 (b0 b1 : Nat) : Nat := ((b0 &&& 0x1f) <<< 6) ||| (b1 &&& 0x3f)

/-- The 3-byte rejection test: bad continuation bytes, overlong,
surrogate, or U+FFFE/U+FFFF. -/
def bad3 (b0 b1 b2 : Nat) : Bool :=
  b1 &&& 0xc0 != 0x80 || b2 &&& 0xc0 != 0x80 ||
  (b0 == 0xe0 && b1 &&& 0xe0 == 0x80) ||
  (b0 == 0xed && b1 &&& 0xe0 == 0xa0) ||
  (b0 == 0xef && b1 == 0xbf && b2 &&& 0xfe == 0xbe)

/-- Codepoint assembled from a valid 3-byte sequence. -/
def cp3 (b0 b1 b2 : Nat) : Nat :=
  ((b0 &&& 0x0f) <<< 12) ||| ((b1 &&& 0x3f) <<< 6) ||| (b2 &&& 0x3f)

/-- The 4-byte rejection test: bad continuation bytes, overlong, or a
value above U+10FFFF. -/
def bad4 (b0 b1 b2 b3 : Nat) : Bool :=
  b1 &&& 0xc0 != 0x80 || b2 &&& 0xc0 != 0x80 || b3 &&& 0xc0 != 0x80 ||
  (b0 == 0xf0 && b1 &&& 0xf0 == 0x80) ||
  (b0 == 0xf4 && b1 > 0x8f) || b0 > 0xf4

/-- Codepoint assembled from a valid 4-byte sequence. -/
def cp4 (b0 b1 b2 b3 : Nat) : Nat :=
  ((b0 &&& 0x07) <<< 18) ||| ((b1 &&& 0x3f) <<< 12) |||
  ((b2 &&& 0x3f) <<< 6) ||| (b3 &&& 0x3f)

/-- One pass of the generator `_utf8_iter_ucs`: the list of
(codepoint-or-`none`, consumed byte count) pairs it yields, as a
recursion over the remaining bytes.  The generator `return`s (stops)
right after yielding an invalid unit, so at most one `none` unit
appears, always last.  The `Nat` argument only makes the recursion
structural: every step consumes at least one byte, so a budget of the
input's length (what `utf8_decode` passes) never runs out
(`utf8_decode_go_fuel` below). -/
def utf8_decode_go : Nat → List Nat → List (Option Nat × Nat)
  | 0, _ => []
  | fuel + 1, s =>
    match s with
    | [] => []
    | b0 :: rest =>
      if b0 < 0x80 then
        (some b0, 1) :: utf8_decode_go fuel rest
      else if lead2 b0 then
        match rest with
        | [] => [(none, 1)]
        | b1 :: rest2 =>
          if bad2 b0 b1 then [(none, 2)]
          else (some (cp2 b0 b1), 2) :: utf8_decode_go fuel rest2
      else if lead3 b0 then
        match rest with
        | [] => [(none, 1)]
        | [_] => [(none, 2)]
        | b1 :: b2 :: rest2 =>
          if bad3 b0 b1 b2 then [(none, 3)]
          else (some (cp3 b0 b1 b2), 3) :: utf8_decode_go fuel rest2
      else if lead4 b0 then
        match rest with
        | [] => [(none, 1)]
        | [_] => [(none, 2)]
        | [_, _] => [(none, 3)]
        | b1 :: b2 :: b3 :: rest2 =>
          if bad4 b0 b1 b2 b3 then [(none, 4)]
          else (some (cp4 b0 b1 b2 b3), 4) :: utf8_decode_go fuel rest2
      else [(none, 1)]

/-- The full decode-unit stream of a byte string (`_utf8_iter_ucs`). -/
def utf8_decode (s : List Nat) : List (Option Nat × Nat) :=
  utf8_decode_go s.length s

/-- Width contribution of one decode unit inside `utf8_width`'s loop:
an invalid unit contributes its raw consumed byte count, a valid one the
width of its codepoint. -/
def unitContrib (u : Option Nat × Nat) : Int :=
  match u.1 with
  | none => (u.2 : Int)
  | some c => _utf8_ucp_width c

/-- Textual width of a utf8 byte string (`utf8_width`). -/
def utf8_width (msg : List Nat) : Int :=
  (utf8_decode msg).foldl (fun ret u => ret + unitContrib u) 0

/-- The accumulation loop of `utf8_width_chop`'s truncating branch:
walks the decode units with running width `ret` and byte offset
`msg_bytes`; the `Bool` records whether the `break` was taken. -/
def chopLoop (c : Int) : List (Option Nat × Nat) → Int → Nat → Int × Nat × Bool
  | [], ret, mb => (ret, mb, false)
  | u :: rest, ret, mb =>
    if ret + unitContrib u > c then (ret, mb, true)
    else chopLoop c rest (ret + unitContrib u) (mb + u.2)

/-- Return the textual width of a utf8 string, chopping it to a specified
value (`utf8_width_chop`).  When the loop ends without `break` the
original string (not a truncation) is returned, as in the source. -/
def utf8_width_chop (msg : List Nat) (chop : Option Int) : Int × List Nat :=
  match chop with
  | none => (utf8_width msg, msg)
  | some c =>
    if utf8_width msg ≤ c then (utf8_width msg, msg)
    else
      let r := chopLoop c (utf8_decode msg) 0 0
      if r.2.2 then (r.1, msg.take r.2.1) else (r.1, msg)

/-- Expand a utf8 msg to a specified width or chop to same
(`utf8_width_fill`).  The parameters `pfx`/`sfx` are the source's
`prefix`/`suffix` keyword arguments. -/
def utf8_width_fill (msg : List Nat) (fill : Int) (chop : Option Int)
    (left : Bool) (pfx sfx : List Nat) : List Nat :=
  let wc := utf8_width_chop msg chop
  let width := wc.1
  let msg1 := wc.2
  if width ≥ fill then
    if pfx ≠ [] ∨ sfx ≠ [] then pfx ++ msg1 ++ sfx else msg1
  else
    let extra := List.replicate (fill - width).toNat 32
    if left then pfx ++ msg1 ++ sfx ++ extra
    else extra ++ pfx ++ msg1 ++ sfx

/-- The byte-length shortcut fit test (`_utf8_width_le`). -/
def _utf8_width_le (width : Int) (args : List (List Nat)) : Bool :=
  if (args.foldl (fun ret a => ret + (a.length : Int)) 0) ≤ width then true
  else decide ((args.foldl (fun ret a => ret + utf8_width a) 0) ≤ width)

/-- Modelled from the spec: the standard minimal UTF-8 encoding of a
codepoint ("concatenating the standard minimal UTF-8 encodings of the
decoded codepoints"); the source file only decodes, so the encoder used
to state the round-trip claims follows RFC 3629's byte layout. -/
def utf8_encode (c : Nat) : List Nat :=
  if c < 0x80 then [c]
  else if c < 0x800 then [0xc0 + c / 64, 0x80 + c % 64]
  else if c < 0x10000 then [0xe0 + c / 4096, 0x80 + c / 64 % 64, 0x80 + c % 64]
  else [0xf0 + c / 262144, 0x80 + c / 4096 % 64, 0x80 + c / 64 % 64, 0x80 + c % 64]

/-- Python `s.rstrip(c)` for a single strip character. -/
def rstrip_chr (ch : Nat) (l : List Nat) : List Nat :=
  (l.reverse.dropWhile (fun b => b = ch)).reverse

/-- Python `s.lstrip(' ')`. -/
def lstrip_spc (l : List Nat) : List Nat :=
  l.dropWhile (fun b => b = 32)

/-- Python `s.split(sep)` for a one-byte separator: splits at every
occurrence, keeping empty pieces, and yields at least one piece. -/
def split_chr (sep : Nat) : List Nat → List (List Nat)
  | [] => [[]]
  | b :: rest =>
    if b = sep then [] :: split_chr sep rest
    else
      match split_chr sep rest with
      | [] => [[b]]
      | g :: gs => (b :: g) :: gs

/-- Python `s.replace('\t', ' ' * 8)`. -/
def expand_tabs (l : List Nat) : List Nat :=
  l.flatMap (fun b => if b = 9 then List.replicate 8 32 else [b])

/-- The value of the Python loop variable `byte` after `_indent_at_beg`'s
leading-space scan: `'X'` for an empty line, the last examined byte (a
space) when the line is all spaces, else the first non-space byte. -/
def first_nonspace (line : List Nat) : Nat :=
  match line with
  | [] => 88
  | _ => (line.dropWhile (fun b => b = 32)).headD 32

/-- The recursive indent/list-marker detector `_indent_at_beg`, nested in
`utf8_text_wrap`.  Returns (count of leading spaces, list indent).  The
`Nat` budget makes the recursion structural; every recursive call drops
at least `count + 1 ≥ 1` bytes off the line, so a budget of
`line.length + 1` (what `_indent_at_beg` passes) never runs out. -/
def _indent_at_beg_go : Nat → List Nat → Nat × Nat
  | 0, _ => (0, 0)
  | fuel + 1, line =>
    let count := (line.takeWhile (fun b => b = 32)).length
    let byte := first_nonspace line
    if byte ∉ ([45, 42, 46, 111, 226] : List Nat) then (count, 0)
    else
      let list_chr := (utf8_width_chop (line.drop count) (some 1)).2
      if list_chr ∈ ([[45], [42], [46], [111],
                      [226, 128, 162], [226, 128, 163], [226, 136, 152]] : List (List Nat)) then
        let nxt := _indent_at_beg_go fuel (line.drop (count + list_chr.length))
        let nxt2 := if nxt.2 ≠ 0 then nxt.2 else nxt.1
        if nxt2 ≠ 0 then (count, count + 1 + nxt2) else (count, 0)
      else (count, 0)

/-- `_indent_at_beg(line)` from the source. -/
def _indent_at_beg (line : List Nat) : Nat × Nat :=
  _indent_at_beg_go (line.length + 1) line

/-- The per-input-line state threaded through `utf8_text_wrap`'s main
loop: output lines so far, the pending `indent` buffer, `wrap_last`, and
the previous line's `(csab, cspc_indent)` classification. -/
structure WrapState where
  ret : List (List Nat)
  indent : List Nat
  wrap_last : Bool
  csab : Nat
  cspc_indent : Nat

/-- One iteration of `utf8_text_wrap`'s `for line in lines` loop. -/
def wrapLine (width : Int) (subsequent_indent : List Nat)
    (st : WrapState) (line0 : List Nat) : WrapState :=
  let line1 := rstrip_chr 32 line0
  let lsab := st.csab
  let lspc_indent := st.cspc_indent
  let ci := _indent_at_beg line1
  let csab := ci.1
  let cspc0 := ci.2
  let force_nl :=
    (st.wrap_last ∧ cspc0 ≠ 0) ∨
    (st.wrap_last ∧ csab = line1.length) ∨
    (st.wrap_last ∧ lspc_indent = 0 ∧ (csab ≥ 4 ∧ csab ≠ lsab))
  let ret1 := if force_nl then st.ret ++ [rstrip_chr 32 st.indent] else st.ret
  let indent1 := if force_nl then subsequent_indent else st.indent
  let wl1 := if force_nl then false else st.wrap_last
  let line2 := if csab = line1.length then [] else line1
  let line3 := if wl1 then lstrip_spc line2 else line2
  let cspc1 := if wl1 then lspc_indent else cspc0
  if _utf8_width_le width [indent1, line3] then
    { ret := ret1 ++ [indent1 ++ line3], indent := subsequent_indent,
      wrap_last := false, csab := csab, cspc_indent := cspc1 }
  else
    let words := split_chr 32 line3
    let spcs := if cspc1 = 0 ∧ csab ≥ 4 then csab else cspc1
    let fin := words.foldl
      (fun (acc : List (List Nat) × List Nat) word =>
        if ¬ (_utf8_width_le width [acc.2, word] = true) ∧
           utf8_width acc.2 > utf8_width subsequent_indent then
          (acc.1 ++ [rstrip_chr 32 acc.2],
           (subsequent_indent ++ List.replicate spcs 32) ++ word ++ [32])
        else (acc.1, acc.2 ++ word ++ [32]))
      (ret1, indent1)
    { ret := fin.1, indent := rstrip_chr 32 fin.2 ++ [32],
      wrap_last := true, csab := csab, cspc_indent := cspc1 }

/-- `utf8_text_wrap(text, width, initial_indent, subsequent_indent)`. -/
def utf8_text_wrap (text : List Nat) (width : Int)
    (initial_indent subsequent_indent : List Nat) : List (List Nat) :=
  let lines := split_chr 10 (expand_tabs (rstrip_chr 10 text))
  let st0 : WrapState :=
    { ret := [], indent := initial_indent, wrap_last := false, csab := 0, cspc_indent := 0 }
  let stF := lines.foldl (wrapLine width subsequent_indent) st0
  if stF.wrap_last then stF.ret ++ [rstrip_chr 32 stF.indent] else stF.ret

/-- `utf8_text_fill`: the lines joined by newline. -/
def utf8_text_fill (text : List Nat) (width : Int)
    (initial_indent subsequent_indent : List Nat) : List Nat :=
  ((utf8_text_wrap text width initial_indent subsequent_indent).intersperse [10]).flatten

/-- Total byte count of a list of decode units. -/
def unitBytes (us : List (Option Nat × Nat)) : Nat :=
  (us.map (fun u => u.2)).sum

/-- Total width contribution of a list of decode units. -/
def unitsWidth (us : List (Option Nat × Nat)) : Int :=
  (us.map unitContrib).sum

example : utf8_decode [0xE2, 0x82, 0xAC] = [(some 0x20AC, 3)] := by decide

example : utf8_width [0xE2, 0x82, 0xAC] = 1 := by decide

example : utf8_width [0xff, 0xfe] = 1 := by decide

example : _utf8_ucp_width 0x300 = 0 := by decide

example : _utf8_ucp_width 0x4E00 = 2 := by decide

example : utf8_width_chop [104, 101, 108, 108, 111] (some 3) = (3, [104, 101, 108]) := by
  decide

example :
    utf8_text_wrap [104, 101, 108, 108, 111, 32, 119, 111, 114, 108, 100] 5 [] [] =
      [[104, 101, 108, 108, 111], [119, 111, 114, 108, 100]] := by decide

example : _indent_at_beg [45, 32, 105, 116, 101, 109, 32, 111, 110, 101] = (0, 2) := by decide

example : _indent_at_beg [32, 32, 99, 111, 110, 116, 105, 110, 117, 101, 100] = (2, 0) := by
  decide

theorem _utf8_bisearch_loop_fuel (ucs : Nat) (t : List (Nat × Nat)) :
    ∀ (f g : Nat) (lo hi : Int), (hi + 1 - lo).toNat ≤ f → (hi + 1 - lo).toNat ≤ g →
      _utf8_bisearch_loop ucs t f lo hi = _utf8_bisearch_loop ucs t g lo hi := by
  intro f
  induction f with
  | zero =>
    intro g lo hi hf hg
    have hlt : hi < lo := by omega
    cases g with
    | zero => rfl
    | succ g =>
      simp only [_utf8_bisearch_loop]
      rw [if_neg (by omega)]
  | succ f ih =>
    intro g lo hi hf hg
    by_cases hge : hi ≥ lo
    · have hs : 1 ≤ (hi + 1 - lo).toNat := by omega
      cases g with
      | zero => exact absurd hg (by omega)
      | succ g =>
        simp only [_utf8_bisearch_loop]
        rw [if_pos hge, if_pos hge]
        have hmid : Int.ediv (lo + hi) 2 = (lo + hi) / 2 := rfl
        have h1 : lo ≤ Int.ediv (lo + hi) 2 := by omega
        have h2 : Int.ediv (lo + hi) 2 ≤ hi := by omega
        by_cases hgt : ucs > (t.getD (Int.ediv (lo + hi) 2).toNat (0, 0)).2
        · rw [if_pos hgt, if_pos hgt]
          exact ih g (Int.ediv (lo + hi) 2 + 1) hi (by omega) (by omega)
        · rw [if_neg hgt, if_neg hgt]
          by_cases hlt2 : ucs < (t.getD (Int.ediv (lo + hi) 2).toNat (0, 0)).1
          · rw [if_pos hlt2, if_pos hlt2]
            exact ih g lo (Int.ediv (lo + hi) 2 - 1) (by omega) (by omega)
          · rw [if_neg hlt2, if_neg hlt2]
    · cases g with
      | zero =>
        simp only [_utf8_bisearch_loop]
        rw [if_neg (by omega)]
      | succ g =>
        simp only [_utf8_bisearch_loop]
        rw [if_neg (by omega), if_neg (by omega)]

/-- The structural budget of `utf8_decode_go` is irrelevant once it is at
least the length of the remaining input: the loop always stops by
exhausting the input (or aborting on an invalid unit) first. -/
theorem utf8_decode_go_fuel :
    ∀ (f g : Nat) (s : List Nat), s.length ≤ f → s.length ≤ g →
      utf8_decode_go f s = utf8_decode_go g s := by
  intro f
  induction f with
  | zero =>
    intro g s hf hg
    have hs : s = [] := by cases s <;> simp_all
    subst hs
    cases g <;> simp [utf8_decode_go]
  | succ f ih =>
    intro g s hf hg
    cases s with
    | nil => cases g <;> simp [utf8_decode_go]
    | cons b0 rest =>
      cases g with
      | zero => simp at hg
      | succ g =>
        simp only [utf8_decode_go]
        simp only [List.length_cons] at hf hg
        by_cases h1 : b0 < 0x80
        · simp only [if_pos h1]
          rw [ih g rest (by omega) (by omega)]
        · simp only [if_neg h1]
          by_cases h2 : lead2 b0
          · simp only [if_pos h2]
            cases rest with
            | nil => rfl
            | cons b1 rest2 =>
              by_cases hb : bad2 b0 b1
              · simp only [if_pos hb]
              · simp only [if_neg hb]
                simp only [List.length_cons] at hf hg
                rw [ih g rest2 (by omega) (by omega)]
          · simp only [if_neg h2]
            by_cases h3 : lead3 b0
            · simp only [if_pos h3]
              cases rest with
              | nil => rfl
              | cons b1 rest1 =>
                cases rest1 with
                | nil => rfl
                | cons b2 rest2 =>
                  by_cases hb : bad3 b0 b1 b2
                  · simp only [if_pos hb]
                  · simp only [if_neg hb]
                    simp only [List.length_cons] at hf hg
                    rw [ih g rest2 (by omega) (by omega)]
            · simp only [if_neg h3]
              by_cases h4 : lead4 b0
              · simp only [if_pos h4]
                cases rest with
                | nil => rfl
                | cons b1 rest1 =>
                  cases rest1 with
                  | nil => rfl
                  | cons b2 rest12 =>
                    cases rest12 with
                    | nil => rfl
                    | cons b3 rest2 =>
                      by_cases hb : bad4 b0 b1 b2 b3
                      · simp only [if_pos hb]
                      · simp only [if_neg hb]
                        simp only [List.length_cons] at hf hg
                        rw [ih g rest2 (by omega) (by omega)]
              · simp only [if_neg h4]

/-- Any sufficient budget computes the canonical decode stream. -/
theorem utf8_decode_go_spec (f : Nat) (s : List Nat) (h : s.length ≤ f) :
    utf8_decode_go f s = utf8_decode s :=
  utf8_decode_go_fuel f s.length s h (Nat.le_refl _)

theorem utf8_decode_nil : utf8_decode [] = [] := rfl

theorem utf8_decode_ascii (b0 : Nat) (rest : List Nat) (h : b0 < 0x80) :
    utf8_decode (b0 :: rest) = (some b0, 1) :: utf8_decode rest := by
  show utf8_decode_go (rest.length + 1) (b0 :: rest) = _
  rw [utf8_decode_go.eq_def]
  simp only [if_pos h]
  rfl

theorem utf8_decode_two_nil (b0 : Nat) (h1 : ¬ b0 < 0x80) (h2 : lead2 b0 = true) :
    utf8_decode [b0] = [(none, 1)] := by
  show utf8_decode_go 1 [b0] = _
  rw [utf8_decode_go.eq_def]
  simp only [if_neg h1, if_pos h2]

theorem utf8_decode_two_bad (b0 b1 : Nat) (r : List Nat) (h1 : ¬ b0 < 0x80)
    (h2 : lead2 b0 = true) (hb : bad2 b0 b1 = true) :
    utf8_decode (b0 :: b1 :: r) = [(none, 2)] := by
  show utf8_decode_go (r.length + 2) (b0 :: b1 :: r) = _
  rw [utf8_decode_go.eq_def]
  simp only [if_neg h1, if_pos h2, if_pos hb]

theorem utf8_decode_two_ok (b0 b1 : Nat) (r : List Nat) (h1 : ¬ b0 < 0x80)
    (h2 : lead2 b0 = true) (hb : bad2 b0 b1 = false) :
    utf8_decode (b0 :: b1 :: r) = (some (cp2 b0 b1), 2) :: utf8_decode r := by
  show utf8_decode_go (r.length + 2) (b0 :: b1 :: r) = _
  rw [utf8_decode_go.eq_def]
  simp only [if_neg h1, if_pos h2, hb, Bool.false_eq_true, if_false]
  rw [utf8_decode_go_spec _ r (by omega)]

theorem utf8_decode_three_nil (b0 : Nat) (h1 : ¬ b0 < 0x80) (h2 : lead2 b0 = false)
    (h3 : lead3 b0 = true) : utf8_decode [b0] = [(none, 1)] := by
  show utf8_decode_go 1 [b0] = _
  rw [utf8_decode_go.eq_def]
  simp only [if_neg h1, h2, Bool.false_eq_true, if_false, if_pos h3]

theorem utf8_decode_three_one (b0 b1 : Nat) (h1 : ¬ b0 < 0x80) (h2 : lead2 b0 = false)
    (h3 : lead3 b0 = true) : utf8_decode [b0, b1] = [(none, 2)] := by
  show utf8_decode_go 2 [b0, b1] = _
  rw [utf8_decode_go.eq_def]
  simp only [if_neg h1, h2, Bool.false_eq_true, if_false, if_pos h3]

theorem utf8_decode_three_bad (b0 b1 b2 : Nat) (r : List Nat) (h1 : ¬ b0 < 0x80)
    (h2 : lead2 b0 = false) (h3 : lead3 b0 = true) (hb : bad3 b0 b1 b2 = true) :
    utf8_decode (b0 :: b1 :: b2 :: r) = [(none, 3)] := by
  show utf8_decode_go (r.length + 3) (b0 :: b1 :: b2 :: r) = _
  rw [utf8_decode_go.eq_def]
  simp only [if_neg h1, h2, Bool.false_eq_true, if_false, if_pos h3, if_pos hb]

theorem utf8_decode_three_ok (b0 b1 b2 : Nat) (r : List Nat) (h1 : ¬ b0 < 0x80)
    (h2 : lead2 b0 = false) (h3 : lead3 b0 = true) (hb : bad3 b0 b1 b2 = false) :
    utf8_decode (b0 :: b1 :: b2 :: r) = (some (cp3 b0 b1 b2), 3) :: utf8_decode r := by
  show utf8_decode_go (r.length + 3) (b0 :: b1 :: b2 :: r) = _
  rw [utf8_decode_go.eq_def]
  simp only [if_neg h1, h2, hb, Bool.false_eq_true, if_false, if_pos h3]
  rw [utf8_decode_go_spec _ r (by omega)]

theorem utf8_decode_four_nil (b0 : Nat) (h1 : ¬ b0 < 0x80) (h2 : lead2 b0 = false)
    (h3 : lead3 b0 = false) (h4 : lead4 b0 = true) : utf8_decode [b0] = [(none, 1)] := by
  show utf8_decode_go 1 [b0] = _
  rw [utf8_decode_go.eq_def]
  simp only [if_neg h1, h2, h3, Bool.false_eq_true, if_false, if_pos h4]

theorem utf8_decode_four_one (b0 b1 : Nat) (h1 : ¬ b0 < 0x80) (h2 : lead2 b0 = false)
    (h3 : lead3 b0 = false) (h4 : lead4 b0 = true) : utf8_decode [b0, b1] = [(none, 2)] := by
  show utf8_decode_go 2 [b0, b1] = _
  rw [utf8_decode_go.eq_def]
  simp only [if_neg h1, h2, h3, Bool.false_eq_true, if_false, if_pos h4]

theorem utf8_decode_four_two (b0 b1 b2 : Nat) (h1 : ¬ b0 < 0x80) (h2 : lead2 b0 = false)
    (h3 : lead3 b0 = false) (h4 : lead4 b0 = true) :
    utf8_decode [b0, b1, b2] = [(none, 3)] := by
  show utf8_decode_go 3 [b0, b1, b2] = _
  rw [utf8_decode_go.eq_def]
  simp only [if_neg h1, h2, h3, Bool.false_eq_true, if_false, if_pos h4]

theorem utf8_decode_four_bad (b0 b1 b2 b3 : Nat) (r : List Nat) (h1 : ¬ b0 < 0x80)
    (h2 : lead2 b0 = false) (h3 : lead3 b0 = false) (h4 : lead4 b0 = true)
    (hb : bad4 b0 b1 b2 b3 = true) :
    utf8_decode (b0 :: b1 :: b2 :: b3 :: r) = [(none, 4)] := by
  show utf8_decode_go (r.length + 4) (b0 :: b1 :: b2 :: b3 :: r) = _
  rw [utf8_decode_go.eq_def]
  simp only [if_neg h1, h2, h3, Bool.false_eq_true, if_false, if_pos h4, if_pos hb]

theorem utf8_decode_four_ok (b0 b1 b2 b3 : Nat) (r : List Nat) (h1 : ¬ b0 < 0x80)
    (h2 : lead2 b0 = false) (h3 : lead3 b0 = false) (h4 : lead4 b0 = true)
    (hb : bad4 b0 b1 b2 b3 = false) :
    utf8_decode (b0 :: b1 :: b2 :: b3 :: r) =
      (some (cp4 b0 b1 b2 b3), 4) :: utf8_decode r := by
  show utf8_decode_go (r.length + 4) (b0 :: b1 :: b2 :: b3 :: r) = _
  rw [utf8_decode_go.eq_def]
  simp only [if_neg h1, h2, h3, hb, Bool.false_eq_true, if_false, if_pos h4]
  rw [utf8_decode_go_spec _ r (by omega)]

theorem utf8_decode_other (b0 : Nat) (rest : List Nat) (h1 : ¬ b0 < 0x80)
    (h2 : lead2 b0 = false) (h3 : lead3 b0 = false) (h4 : lead4 b0 = false) :
    utf8_decode (b0 :: rest) = [(none, 1)] := by
  show utf8_decode_go (rest.length + 1) (b0 :: rest) = _
  rw [utf8_decode_go.eq_def]
  simp only [if_neg h1, h2, h3, h4, Bool.false_eq_true, if_false]

theorem lor_shift (a b n : Nat) (h : b < 2 ^ n) : (a <<< n) ||| b = a * 2 ^ n + b := by
  rw [Nat.shiftLeft_eq, Nat.mul_comm]
  exact (Nat.mul_add_lt_is_or h a).symm

theorem mask_lead2 : ∀ b < 256, (lead2 b = true ↔ 192 ≤ b ∧ b ≤ 223) := by decide

theorem mask_lead3 : ∀ b < 256, (lead3 b = true ↔ 224 ≤ b ∧ b ≤ 239) := by decide

theorem mask_lead4 : ∀ b < 256, (lead4 b = true ↔ 240 ≤ b ∧ b ≤ 247) := by decide

theorem mask_cont : ∀ b < 256, (b &&& 0xc0 = 0x80 ↔ 128 ≤ b ∧ b ≤ 191) := by decide

theorem mask_c0c1 : ∀ b < 256, (b &&& 0xfe = 0xc0 ↔ b = 192 ∨ b = 193) := by decide

theorem mask_e0_80 : ∀ b < 256, (b &&& 0xe0 = 0x80 ↔ 128 ≤ b ∧ b ≤ 159) := by decide

theorem mask_e0_a0 : ∀ b < 256, (b &&& 0xe0 = 0xa0 ↔ 160 ≤ b ∧ b ≤ 191) := by decide

theorem mask_fe_be : ∀ b < 256, (b &&& 0xfe = 0xbe ↔ b = 190 ∨ b = 191) := by decide

theorem mask_f0_80 : ∀ b < 256, (b &&& 0xf0 = 0x80 ↔ 128 ≤ b ∧ b ≤ 143) := by decide

theorem mask_mod32 : ∀ b < 256, b &&& 0x1f = b % 32 := by decide

theorem mask_mod64 : ∀ b < 256, b &&& 0x3f = b % 64 := by decide

theorem mask_mod16 : ∀ b < 256, b &&& 0x0f = b % 16 := by decide

theorem mask_mod8 : ∀ b < 256, b &&& 0x07 = b % 8 := by decide

/-- A valid 2-byte decode unit re-encodes to its own bytes. -/
theorem encode_cp2 (b0 b1 : Nat) (hb0 : b0 < 256) (hb1 : b1 < 256)
    (h2 : lead2 b0 = true) (hbad : bad2 b0 b1 = false) :
    utf8_encode (cp2 b0 b1) = [b0, b1] := by
  unfold bad2 at hbad
  rw [Bool.or_eq_false_iff] at hbad
  obtain ⟨hc, hov⟩ := hbad
  rw [bne_eq_false_iff_eq] at hc
  have hcont : 128 ≤ b1 ∧ b1 ≤ 191 := (mask_cont b1 hb1).mp hc
  rw [beq_eq_false_iff_ne] at hov
  have hov2 : ¬(b0 = 192 ∨ b0 = 193) := fun h => hov ((mask_c0c1 b0 hb0).mpr h)
  have hl : 192 ≤ b0 ∧ b0 ≤ 223 := (mask_lead2 b0 hb0).mp h2
  have hcp : cp2 b0 b1 = (b0 - 192) * 64 + (b1 - 128) := by
    unfold cp2
    rw [mask_mod32 b0 hb0, mask_mod64 b1 hb1, lor_shift _ _ 6 (by omega)]
    have e1 : b0 % 32 = b0 - 192 := by omega
    have e2 : b1 % 64 = b1 - 128 := by omega
    rw [e1, e2]
    norm_num
  unfold utf8_encode
  rw [hcp]
  rw [if_neg (by omega), if_pos (by omega)]
  have d1 : 192 + ((b0 - 192) * 64 + (b1 - 128)) / 64 = b0 := by omega
  have d2 : 128 + ((b0 - 192) * 64 + (b1 - 128)) % 64 = b1 := by omega
  rw [d1, d2]

/-- A valid 3-byte decode unit re-encodes to its own bytes. -/
theorem encode_cp3 (b0 b1 b2 : Nat) (hb0 : b0 < 256) (hb1 : b1 < 256) (hb2 : b2 < 256)
    (h3 : lead3 b0 = true) (hbad : bad3 b0 b1 b2 = false) :
    utf8_encode (cp3 b0 b1 b2) = [b0, b1, b2] := by
  unfold bad3 at hbad
  simp only [Bool.or_eq_false_iff, Bool.and_eq_false_iff, bne_eq_false_iff_eq,
    beq_eq_false_iff_ne] at hbad
  obtain ⟨⟨⟨⟨hc1, hc2⟩, hA⟩, hB⟩, hC⟩ := hbad
  have hr1 : 128 ≤ b1 ∧ b1 ≤ 191 := (mask_cont b1 hb1).mp hc1
  have hr2 : 128 ≤ b2 ∧ b2 ≤ 191 := (mask_cont b2 hb2).mp hc2
  have hl : 224 ≤ b0 ∧ b0 ≤ 239 := (mask_lead3 b0 hb0).mp h3
  have E1 : ¬(b0 = 224 ∧ b1 ≤ 159) := by
    rintro ⟨h0, hb⟩
    rcases hA with hA | hA
    · exact hA h0
    · exact hA ((mask_e0_80 b1 hb1).mpr ⟨hr1.1, hb⟩)
  have E2 : ¬(b0 = 237 ∧ 160 ≤ b1) := by
    rintro ⟨h0, hb⟩
    rcases hB with hB | hB
    · exact hB h0
    · exact hB ((mask_e0_a0 b1 hb1).mpr ⟨hb, hr1.2⟩)
  have E3 : ¬(b0 = 239 ∧ b1 = 191 ∧ 190 ≤ b2) := by
    rintro ⟨h0, hb, hb2r⟩
    rcases hC with (hC | hC) | hC
    · exact hC h0
    · exact hC hb
    · exact hC ((mask_fe_be b2 hb2).mpr (by omega))
  have hcp : cp3 b0 b1 b2 = (b0 - 224) * 4096 + (b1 - 128) * 64 + (b2 - 128) := by
    unfold cp3
    rw [mask_mod16 b0 hb0, mask_mod64 b1 hb1, mask_mod64 b2 hb2]
    have hy : (b1 % 64) <<< 6 = (b1 % 64) * 64 := by
      rw [Nat.shiftLeft_eq]
    rw [lor_shift (b0 % 16) ((b1 % 64) <<< 6) 12 (by rw [hy]; omega)]
    have hre : (b0 % 16) * 2 ^ 12 + (b1 % 64) <<< 6 =
        ((b0 % 16) * 64 + b1 % 64) <<< 6 := by
      rw [hy, Nat.shiftLeft_eq]
      ring
    rw [hre, lor_shift _ _ 6 (by omega)]
    have e0 : b0 % 16 = b0 - 224 := by omega
    have e1 : b1 % 64 = b1 - 128 := by omega
    have e2 : b2 % 64 = b2 - 128 := by omega
    rw [e0, e1, e2]
    ring
  have hge : 0x800 ≤ cp3 b0 b1 b2 := by
    rw [hcp]
    rcases Nat.eq_or_lt_of_le hl.1 with h0 | h0
    · have : ¬ b1 ≤ 159 := fun hle => E1 ⟨h0.symm, hle⟩
      omega
    · omega
  have hlt : cp3 b0 b1 b2 < 0x10000 := by
    rw [hcp]; omega
  unfold utf8_encode
  rw [if_neg (by omega), if_neg (by omega), if_pos hlt]
  rw [hcp]
  have d0 : 224 + ((b0 - 224) * 4096 + (b1 - 128) * 64 + (b2 - 128)) / 4096 = b0 := by
    omega
  have d1 : 128 + ((b0 - 224) * 4096 + (b1 - 128) * 64 + (b2 - 128)) / 64 % 64 = b1 := by
    omega
  have d2 : 128 + ((b0 - 224) * 4096 + (b1 - 128) * 64 + (b2 - 128)) % 64 = b2 := by
    omega
  rw [d0, d1, d2]

/-- A valid 4-byte decode unit re-encodes to its own bytes. -/
theorem encode_cp4 (b0 b1 b2 b3 : Nat) (hb0 : b0 < 256) (hb1 : b1 < 256)
    (hb2 : b2 < 256) (hb3 : b3 < 256)
    (h4 : lead4 b0 = true) (hbad : bad4 b0 b1 b2 b3 = false) :
    utf8_encode (cp4 b0 b1 b2 b3) = [b0, b1, b2, b3] := by
  unfold bad4 at hbad
  simp only [Bool.or_eq_false_iff, Bool.and_eq_false_iff, bne_eq_false_iff_eq,
    beq_eq_false_iff_ne, decide_eq_false_iff_not] at hbad
  obtain ⟨⟨⟨⟨⟨hc1, hc2⟩, hc3⟩, hA⟩, hB⟩, hC⟩ := hbad
  have hr1 : 128 ≤ b1 ∧ b1 ≤ 191 := (mask_cont b1 hb1).mp hc1
  have hr2 : 128 ≤ b2 ∧ b2 ≤ 191 := (mask_cont b2 hb2).mp hc2
  have hr3 : 128 ≤ b3 ∧ b3 ≤ 191 := (mask_cont b3 hb3).mp hc3
  have hl : 240 ≤ b0 ∧ b0 ≤ 247 := (mask_lead4 b0 hb0).mp h4
  have hl2 : b0 ≤ 244 := by omega
  have E1 : ¬(b0 = 240 ∧ b1 ≤ 143) := by
    rintro ⟨h0, hb⟩
    rcases hA with hA | hA
    · exact hA h0
    · exact hA ((mask_f0_80 b1 hb1).mpr ⟨hr1.1, hb⟩)
  have E2 : ¬(b0 = 244 ∧ 143 < b1) := by
    rintro ⟨h0, hb⟩
    rcases hB with hB | hB
    · exact hB h0
    · exact hB hb
  have hcp : cp4 b0 b1 b2 b3 =
      (b0 - 240) * 262144 + (b1 - 128) * 4096 + (b2 - 128) * 64 + (b3 - 128) := by
    unfold cp4
    rw [mask_mod8 b0 hb0, mask_mod64 b1 hb1, mask_mod64 b2 hb2, mask_mod64 b3 hb3]
    have hy : (b1 % 64) <<< 12 = (b1 % 64) * 4096 := by
      rw [Nat.shiftLeft_eq]
    have hz : (b2 % 64) <<< 6 = (b2 % 64) * 64 := by
      rw [Nat.shiftLeft_eq]
    rw [lor_shift (b0 % 8) ((b1 % 64) <<< 12) 18 (by rw [hy]; omega)]
    have hre : (b0 % 8) * 2 ^ 18 + (b1 % 64) <<< 12 =
        ((b0 % 8) * 64 + b1 % 64) <<< 12 := by
      rw [hy, Nat.shiftLeft_eq]
      ring
    rw [hre, lor_shift _ ((b2 % 64) <<< 6) 12 (by rw [hz]; omega)]
    have hre2 : ((b0 % 8) * 64 + b1 % 64) * 2 ^ 12 + (b2 % 64) <<< 6 =
        (((b0 % 8) * 64 + b1 % 64) * 64 + b2 % 64) <<< 6 := by
      rw [hz, Nat.shiftLeft_eq]
      ring
    rw [hre2, lor_shift _ _ 6 (by omega)]
    have e0 : b0 % 8 = b0 - 240 := by omega
    have e1 : b1 % 64 = b1 - 128 := by omega
    have e2 : b2 % 64 = b2 - 128 := by omega
    have e3 : b3 % 64 = b3 - 128 := by omega
    rw [e0, e1, e2, e3]
    ring
  have hge : 0x10000 ≤ cp4 b0 b1 b2 b3 := by
    rw [hcp]
    rcases Nat.eq_or_lt_of_le hl.1 with h0 | h0
    · have : ¬ b1 ≤ 143 := fun hle => E1 ⟨h0.symm, hle⟩
      omega
    · omega
  unfold utf8_encode
  rw [if_neg (by omega), if_neg (by omega), if_neg (by omega)]
  rw [hcp]
  have d0 : 240 + ((b0 - 240) * 262144 + (b1 - 128) * 4096 + (b2 - 128) * 64 +
      (b3 - 128)) / 262144 = b0 := by omega
  have d1 : 128 + ((b0 - 240) * 262144 + (b1 - 128) * 4096 + (b2 - 128) * 64 +
      (b3 - 128)) / 4096 % 64 = b1 := by omega
  have d2 : 128 + ((b0 - 240) * 262144 + (b1 - 128) * 4096 + (b2 - 128) * 64 +
      (b3 - 128)) / 64 % 64 = b2 := by omega
  have d3 : 128 + ((b0 - 240) * 262144 + (b1 - 128) * 4096 + (b2 - 128) * 64 +
      (b3 - 128)) % 64 = b3 := by omega
  rw [d0, d1, d2, d3]

theorem ucp_width_le_two (c : Nat) : _utf8_ucp_width c ≤ 2 := by
  unfold _utf8_ucp_width
  split_ifs <;> norm_num

theorem ucp_width_le_one (c : Nat) (h : c < 0x1100) : _utf8_ucp_width c ≤ 1 := by
  unfold _utf8_ucp_width
  split_ifs with h1 h2 h3 h4
  · norm_num
  · norm_num
  · norm_num
  · exact absurd h4.1 (by omega)
  · norm_num

/-- Structure of the head of a decode stream: the input is empty, or it
starts with a valid unit whose consumed bytes decode to that unit in
front of any continuation, or it starts with (and ends at) an invalid
unit whose consumed bytes decode to exactly that unit. -/
theorem utf8_decode_cases (s : List Nat) :
    (s = [] ∧ utf8_decode s = [])
    ∨ (∃ c n front rest2, s = front ++ rest2 ∧ front.length = n ∧ 1 ≤ n ∧
        (∀ t, utf8_decode (front ++ t) = (some c, n) :: utf8_decode t) ∧
        _utf8_ucp_width c ≤ (n : Int) ∧
        ((∀ b ∈ front, b < 256) → utf8_encode c = front))
    ∨ (∃ n front rest2, s = front ++ rest2 ∧ front.length = n ∧ 1 ≤ n ∧
        utf8_decode s = [(none, n)] ∧ utf8_decode front = [(none, n)]) := by
  cases s with
  | nil => exact Or.inl ⟨rfl, rfl⟩
  | cons b0 rest =>
    by_cases h1 : b0 < 0x80
    · refine Or.inr (Or.inl ⟨b0, 1, [b0], rest, rfl, rfl, le_rfl, ?_, ?_, ?_⟩)
      · intro t
        exact utf8_decode_ascii b0 t h1
      · exact ucp_width_le_one b0 (by omega)
      · intro hbb
        unfold utf8_encode
        rw [if_pos h1]
    · by_cases h2 : lead2 b0 = true
      · cases rest with
        | nil =>
          refine Or.inr (Or.inr ⟨1, [b0], [], rfl, rfl, le_rfl, ?_, ?_⟩) <;>
            exact utf8_decode_two_nil b0 h1 h2
        | cons b1 r =>
          by_cases hb : bad2 b0 b1 = true
          · exact Or.inr (Or.inr ⟨2, [b0, b1], r, rfl, rfl, by omega,
              utf8_decode_two_bad b0 b1 r h1 h2 hb,
              utf8_decode_two_bad b0 b1 [] h1 h2 hb⟩)
          · have hb2 : bad2 b0 b1 = false := by
              revert hb
              cases bad2 b0 b1 <;> simp
            refine Or.inr (Or.inl ⟨cp2 b0 b1, 2, [b0, b1], r, rfl, rfl, by omega,
              ?_, ?_, ?_⟩)
            · intro t
              exact utf8_decode_two_ok b0 b1 t h1 h2 hb2
            · exact le_trans (ucp_width_le_two _) (by norm_num)
            · intro hbb
              exact encode_cp2 b0 b1 (hbb b0 (by simp)) (hbb b1 (by simp)) h2 hb2
      · have h2f : lead2 b0 = false := by
          revert h2
          cases lead2 b0 <;> simp
        by_cases h3 : lead3 b0 = true
        · cases rest with
          | nil =>
            refine Or.inr (Or.inr ⟨1, [b0], [], rfl, rfl, le_rfl, ?_, ?_⟩) <;>
              exact utf8_decode_three_nil b0 h1 h2f h3
          | cons b1 r1 =>
            cases r1 with
            | nil =>
              refine Or.inr (Or.inr ⟨2, [b0, b1], [], rfl, rfl, by omega, ?_, ?_⟩) <;>
                exact utf8_decode_three_one b0 b1 h1 h2f h3
            | cons b2 r =>
              by_cases hb : bad3 b0 b1 b2 = true
              · exact Or.inr (Or.inr ⟨3, [b0, b1, b2], r, rfl, rfl, by omega,
                  utf8_decode_three_bad b0 b1 b2 r h1 h2f h3 hb,
                  utf8_decode_three_bad b0 b1 b2 [] h1 h2f h3 hb⟩)
              · have hb2 : bad3 b0 b1 b2 = false := by
                  revert hb
                  cases bad3 b0 b1 b2 <;> simp
                refine Or.inr (Or.inl ⟨cp3 b0 b1 b2, 3, [b0, b1, b2], r, rfl, rfl,
                  by omega, ?_, ?_, ?_⟩)
                · intro t
                  exact utf8_decode_three_ok b0 b1 b2 t h1 h2f h3 hb2
                · exact le_trans (ucp_width_le_two _) (by norm_num)
                · intro hbb
                  exact encode_cp3 b0 b1 b2 (hbb b0 (by simp)) (hbb b1 (by simp))
                    (hbb b2 (by simp)) h3 hb2
        · have h3f : lead3 b0 = false := by
            revert h3
            cases lead3 b0 <;> simp
          by_cases h4 : lead4 b0 = true
          · cases rest with
            | nil =>
              refine Or.inr (Or.inr ⟨1, [b0], [], rfl, rfl, le_rfl, ?_, ?_⟩) <;>
                exact utf8_decode_four_nil b0 h1 h2f h3f h4
            | cons b1 r1 =>
              cases r1 with
              | nil =>
                refine Or.inr (Or.inr ⟨2, [b0, b1], [], rfl, rfl, by omega, ?_, ?_⟩) <;>
                  exact utf8_decode_four_one b0 b1 h1 h2f h3f h4
              | cons b2 r2 =>
                cases r2 with
                | nil =>
                  refine Or.inr (Or.inr ⟨3, [b0, b1, b2], [], rfl, rfl, by omega,
                    ?_, ?_⟩) <;> exact utf8_decode_four_two b0 b1 b2 h1 h2f h3f h4
                | cons b3 r =>
                  by_cases hb : bad4 b0 b1 b2 b3 = true
                  · exact Or.inr (Or.inr ⟨4, [b0, b1, b2, b3], r, rfl, rfl, by omega,
                      utf8_decode_four_bad b0 b1 b2 b3 r h1 h2f h3f h4 hb,
                      utf8_decode_four_bad b0 b1 b2 b3 [] h1 h2f h3f h4 hb⟩)
                  · have hb2 : bad4 b0 b1 b2 b3 = false := by
                      revert hb
                      cases bad4 b0 b1 b2 b3 <;> simp
                    refine Or.inr (Or.inl ⟨cp4 b0 b1 b2 b3, 4, [b0, b1, b2, b3], r,
                      rfl, rfl, by omega, ?_, ?_, ?_⟩)
                    · intro t
                      exact utf8_decode_four_ok b0 b1 b2 b3 t h1 h2f h3f h4 hb2
                    · exact le_trans (ucp_width_le_two _) (by norm_num)
                    · intro hbb
                      exact encode_cp4 b0 b1 b2 b3 (hbb b0 (by simp)) (hbb b1 (by simp))
                        (hbb b2 (by simp)) (hbb b3 (by simp)) h4 hb2
          · have h4f : lead4 b0 = false := by
              revert h4
              cases lead4 b0 <;> simp
            exact Or.inr (Or.inr ⟨1, [b0], rest, rfl, rfl, le_rfl,
              utf8_decode_other b0 rest h1 h2f h3f h4f,
              utf8_decode_other b0 [] h1 h2f h3f h4f⟩)
theorem foldl_add_int {α : Type} (f : α → Int) :
    ∀ (l : List α) (i : Int), l.foldl (fun r u => r + f u) i = i + (l.map f).sum := by
  intro l
  induction l with
  | nil => intro i; simp
  | cons a l ih =>
    intro i
    simp only [List.foldl_cons, List.map_cons, List.sum_cons, ih]
    ring

theorem utf8_width_eq (s : List Nat) : utf8_width s = unitsWidth (utf8_decode s) := by
  unfold utf8_width unitsWidth
  rw [foldl_add_int unitContrib]
  simp

theorem unitsWidth_cons (u : Option Nat × Nat) (us : List (Option Nat × Nat)) :
    unitsWidth (u :: us) = unitContrib u + unitsWidth us := by
  simp [unitsWidth]

theorem unitBytes_cons (u : Option Nat × Nat) (us : List (Option Nat × Nat)) :
    unitBytes (u :: us) = u.2 + unitBytes us := by
  simp [unitBytes]

theorem unitBytes_le_len_aux :
    ∀ (k : Nat) (s : List Nat), s.length ≤ k → unitBytes (utf8_decode s) ≤ s.length := by
  intro k
  induction k with
  | zero =>
    intro s hk
    have hs : s = [] := by cases s <;> simp_all
    subst hs
    simp [utf8_decode_nil, unitBytes]
  | succ k ih =>
    intro s hk
    rcases utf8_decode_cases s with ⟨hs, hd⟩ | ⟨c, n, front, rest2, hs, hn, h1, hloc, _, _⟩ |
      ⟨n, front, rest2, hs, hn, h1, hd, _⟩
    · subst hs; simp [hd, unitBytes]
    · have hdec : utf8_decode s = (some c, n) :: utf8_decode rest2 := by
        rw [hs]; exact hloc rest2
      have hlen : s.length = n + rest2.length := by
        rw [hs]; simp [hn.symm]
      have := ih rest2 (by omega)
      rw [hdec, unitBytes_cons, hlen]
      omega
    · have hlen : s.length = n + rest2.length := by
        rw [hs]; simp [hn.symm]
      rw [hd, hlen]
      simp [unitBytes]

/-- Byte counts of the decode units never exceed the input length. -/
theorem unitBytes_le_len (s : List Nat) : unitBytes (utf8_decode s) ≤ s.length :=
  unitBytes_le_len_aux s.length s (Nat.le_refl _)

theorem unitsWidth_le_aux :
    ∀ (k : Nat) (s : List Nat), s.length ≤ k →
      unitsWidth (utf8_decode s) ≤ (s.length : Int) := by
  intro k
  induction k with
  | zero =>
    intro s hk
    have hs : s = [] := by cases s <;> simp_all
    subst hs
    simp [utf8_decode_nil, unitsWidth]
  | succ k ih =>
    intro s hk
    rcases utf8_decode_cases s with ⟨hs, hd⟩ | ⟨c, n, front, rest2, hs, hn, h1, hloc, hw, _⟩ |
      ⟨n, front, rest2, hs, hn, h1, hd, _⟩
    · subst hs; simp [hd, unitsWidth]
    · have hdec : utf8_decode s = (some c, n) :: utf8_decode rest2 := by
        rw [hs]; exact hloc rest2
      have hlen : s.length = n + rest2.length := by
        rw [hs]; simp [hn.symm]
      have := ih rest2 (by omega)
      have hc : unitContrib (some c, n) = _utf8_ucp_width c := rfl
      rw [hdec, unitsWidth_cons, hc, hlen]
      push_cast
      omega
    · have hlen : s.length = n + rest2.length := by
        rw [hs]; simp [hn.symm]
      have hc : unitsWidth [((none : Option Nat), n)] = (n : Int) := by
        simp [unitsWidth, unitContrib]
      rw [hd, hc, hlen]
      push_cast
      omega

/-- Total width never exceeds the byte length. -/
theorem utf8_width_le_len (s : List Nat) : utf8_width s ≤ (s.length : Int) := by
  rw [utf8_width_eq]
  exact unitsWidth_le_aux s.length s (Nat.le_refl _)
theorem decode_take_aux :
    ∀ (k : Nat) (s : List Nat), s.length ≤ k → ∀ (j : Nat),
      utf8_decode (s.take (unitBytes ((utf8_decode s).take j))) = (utf8_decode s).take j := by
  intro k
  induction k with
  | zero =>
    intro s hk j
    have hs : s = [] := by cases s <;> simp_all
    subst hs
    simp [utf8_decode_nil, unitBytes]
  | succ k ih =>
    intro s hk j
    rcases utf8_decode_cases s with ⟨hs, hd⟩ | ⟨c, n, front, rest2, hs, hn, h1, hloc, _, _⟩ |
      ⟨n, front, rest2, hs, hn, h1, hd, hdf⟩
    · subst hs
      simp [hd, unitBytes]
    · have hdec : utf8_decode s = (some c, n) :: utf8_decode rest2 := by
        rw [hs]; exact hloc rest2
      have hlen : s.length = n + rest2.length := by
        rw [hs]; simp [hn.symm]
      cases j with
      | zero => simp [unitBytes, utf8_decode_nil]
      | succ j =>
        rw [hdec]
        simp only [List.take_succ_cons, unitBytes_cons]
        have htake : s.take (n + unitBytes ((utf8_decode rest2).take j)) =
            front ++ rest2.take (unitBytes ((utf8_decode rest2).take j)) := by
          rw [hs, List.take_append_eq_append_take]
          congr 1
          · exact List.take_of_length_le (by omega)
          · congr 1
            omega
        rw [htake, hloc, ih rest2 (by omega) j]
    · have hlen : s.length = n + rest2.length := by
        rw [hs]; simp [hn.symm]
      cases j with
      | zero => simp [unitBytes, utf8_decode_nil]
      | succ j =>
        rw [hd]
        have htk : ((((none : Option Nat), n)) :: ([] : List (Option Nat × Nat))).take (j+1)
            = [(none, n)] := by simp
        rw [htk]
        have hub : unitBytes [((none : Option Nat), n)] = n := by simp [unitBytes]
        rw [hub]
        have : s.take n = front := by
          rw [hs]
          exact List.take_left' hn
        rw [this, hdf]

/-- Chopping the input at a decode-unit boundary reproduces exactly the
units before that boundary. -/
theorem utf8_decode_take (s : List Nat) (j : Nat) :
    utf8_decode (s.take (unitBytes ((utf8_decode s).take j))) = (utf8_decode s).take j :=
  decode_take_aux s.length s (Nat.le_refl _) j

theorem decode_append_aux :
    ∀ (k : Nat) (s : List Nat), s.length ≤ k →
      (∀ u ∈ utf8_decode s, u.1.isSome = true) → ∀ (t : List Nat),
      utf8_decode (s ++ t) = utf8_decode s ++ utf8_decode t := by
  intro k
  induction k with
  | zero =>
    intro s hk hv t
    have hs : s = [] := by cases s <;> simp_all
    subst hs
    simp [utf8_decode_nil]
  | succ k ih =>
    intro s hk hv t
    rcases utf8_decode_cases s with ⟨hs, hd⟩ | ⟨c, n, front, rest2, hs, hn, h1, hloc, _, _⟩ |
      ⟨n, front, rest2, hs, hn, h1, hd, _⟩
    · subst hs
      simp [utf8_decode_nil]
    · have hdec : utf8_decode s = (some c, n) :: utf8_decode rest2 := by
        rw [hs]; exact hloc rest2
      have hlen : s.length = n + rest2.length := by
        rw [hs]; simp [hn.symm]
      have hv2 : ∀ u ∈ utf8_decode rest2, u.1.isSome = true := by
        intro u hu
        exact hv u (by rw [hdec]; exact List.mem_cons_of_mem _ hu)
      have happ : s ++ t = front ++ (rest2 ++ t) := by
        rw [hs, List.append_assoc]
      rw [happ, hloc, ih rest2 (by omega) hv2 t, hdec]
      rfl
    · exfalso
      have : ((none : Option Nat), n) ∈ utf8_decode s := by
        rw [hd]; exact List.mem_singleton_self _
      have := hv _ this
      simp at this

/-- Decoding distributes over append when the front part is valid. -/
theorem utf8_decode_append (s t : List Nat)
    (hv : ∀ u ∈ utf8_decode s, u.1.isSome = true) :
    utf8_decode (s ++ t) = utf8_decode s ++ utf8_decode t :=
  decode_append_aux s.length s (Nat.le_refl _) hv t

/-- A run of ASCII spaces decodes to one unit per byte. -/
theorem utf8_decode_replicate_space (m : Nat) :
    utf8_decode (List.replicate m 32) = List.replicate m ((some 32 : Option Nat), 1) := by
  induction m with
  | zero => simp [utf8_decode_nil]
  | succ m ih =>
    rw [List.replicate_succ, utf8_decode_ascii 32 _ (by omega), ih, List.replicate_succ]

theorem unitsWidth_append (us vs : List (Option Nat × Nat)) :
    unitsWidth (us ++ vs) = unitsWidth us + unitsWidth vs := by
  simp [unitsWidth]

/-- Appending `m` spaces to a fully valid byte string adds exactly `m`
to the width. -/
theorem utf8_width_append_spaces (s : List Nat) (m : Nat)
    (hv : ∀ u ∈ utf8_decode s, u.1.isSome = true) :
    utf8_width (s ++ List.replicate m 32) = utf8_width s + m := by
  rw [utf8_width_eq, utf8_decode_append s _ hv, unitsWidth_append, ← utf8_width_eq,
    utf8_decode_replicate_space]
  have : unitsWidth (List.replicate m ((some 32 : Option Nat), 1)) = m := by
    induction m with
    | zero => simp [unitsWidth]
    | succ m ih =>
      rw [List.replicate_succ, unitsWidth_cons, ih]
      have : unitContrib ((some 32 : Option Nat), 1) = 1 := by decide
      rw [this]
      push_cast
      ring
  rw [this]
theorem chopLoop_spec (c : Int) :
    ∀ (us : List (Option Nat × Nat)) (ret : Int) (mb : Nat),
      ∃ k, k ≤ us.length ∧
        chopLoop c us ret mb =
          (ret + unitsWidth (us.take k), mb + unitBytes (us.take k),
            decide (k < us.length)) ∧
        (ret ≤ c → ret + unitsWidth (us.take k) ≤ c) := by
  intro us
  induction us with
  | nil =>
    intro ret mb
    refine ⟨0, Nat.le_refl _, ?_, ?_⟩
    · simp [chopLoop, unitsWidth, unitBytes]
    · intro h
      simpa [unitsWidth] using h
  | cons u rest ih =>
    intro ret mb
    by_cases h : ret + unitContrib u > c
    · refine ⟨0, Nat.zero_le _, ?_, ?_⟩
      · simp [chopLoop, if_pos h, unitsWidth, unitBytes]
      · intro hr
        simpa [unitsWidth] using hr
    · obtain ⟨k, hk, heq, hinv⟩ := ih (ret + unitContrib u) (mb + u.2)
      refine ⟨k + 1, by simpa using hk, ?_, ?_⟩
      · have hstep : chopLoop c (u :: rest) ret mb =
            chopLoop c rest (ret + unitContrib u) (mb + u.2) := by
          simp [chopLoop, if_neg h]
        rw [hstep, heq]
        simp only [List.take_succ_cons, unitsWidth_cons, unitBytes_cons,
          List.length_cons, Prod.mk.injEq]
        refine ⟨by ring, by omega, ?_⟩
        simp [Nat.succ_lt_succ_iff]
      · intro hr
        have hr2 : ret + unitContrib u ≤ c := by omega
        have := hinv hr2
        simp only [List.take_succ_cons, unitsWidth_cons]
        omega

theorem utf8_width_chop_spec (s : List Nat) (w : Int) (hw : 0 ≤ w) :
    utf8_width ((utf8_width_chop s (some w)).2) = (utf8_width_chop s (some w)).1 ∧
    (utf8_width_chop s (some w)).1 ≤ w := by
  by_cases hle : utf8_width s ≤ w
  · simp [utf8_width_chop, hle]
  · obtain ⟨k, hk, heq, hinv⟩ := chopLoop_spec w (utf8_decode s) 0 0
    have h0 : (0 : Int) ≤ w := hw
    have hinv2 := hinv h0
    simp only [zero_add] at heq hinv2
    by_cases hkl : k < (utf8_decode s).length
    · have hflag : decide (k < (utf8_decode s).length) = true := by
        simp [hkl]
      simp only [utf8_width_chop, if_neg hle, heq, hflag, if_true]
      constructor
      · rw [utf8_width_eq, utf8_decode_take s k]
      · exact hinv2
    · have hkeq : k = (utf8_decode s).length := by omega
      have hflag : decide (k < (utf8_decode s).length) = false := by
        simp [hkl]
      have htk : (utf8_decode s).take k = utf8_decode s := by
        rw [hkeq]
        exact List.take_of_length_le (Nat.le_refl _)
      simp only [utf8_width_chop, if_neg hle, heq, hflag, if_false, htk]
      constructor
      · exact utf8_width_eq s
      · rw [htk] at hinv2
        exact hinv2

theorem utf8_width_chop_boundary (s : List Nat) (w : Int) :
    (utf8_width_chop s (some w)).2 = s ∨
    ∃ k, (utf8_width_chop s (some w)).2 = s.take (unitBytes ((utf8_decode s).take k)) := by
  by_cases hle : utf8_width s ≤ w
  · left
    simp [utf8_width_chop, hle]
  · obtain ⟨k, hk, heq, hinv⟩ := chopLoop_spec w (utf8_decode s) 0 0
    simp only [zero_add] at heq
    by_cases hkl : k < (utf8_decode s).length
    · right
      refine ⟨k, ?_⟩
      have hflag : decide (k < (utf8_decode s).length) = true := by simp [hkl]
      simp [utf8_width_chop, if_neg hle, heq, hflag]
    · left
      have hflag : decide (k < (utf8_decode s).length) = false := by simp [hkl]
      simp [utf8_width_chop, if_neg hle, heq, hflag]
theorem map_width_sum_le_map_len_sum (args : List (List Nat)) :
    (args.map utf8_width).sum ≤ (args.map (fun a => (a.length : Int))).sum := by
  induction args with
  | nil => simp
  | cons a l ih =>
    simp only [List.map_cons, List.sum_cons]
    have := utf8_width_le_len a
    omega

/-- The byte-length shortcut always agrees with the full width check. -/
theorem utf8_width_le_spec (w : Int) (args : List (List Nat)) :
    _utf8_width_le w args = decide ((args.map utf8_width).sum ≤ w) := by
  unfold _utf8_width_le
  rw [foldl_add_int (fun a => (a.length : Int)) args 0, foldl_add_int utf8_width args 0]
  simp only [zero_add]
  by_cases h : ((args.map (fun a => (a.length : Int))).sum) ≤ w
  · rw [if_pos h]
    have hle : (args.map utf8_width).sum ≤ w :=
      le_trans (map_width_sum_le_map_len_sum args) h
    simp [hle]
  · rw [if_neg h]
/-- C7: for every width budget and list of byte-string fragments,
`_utf8_width_le` returns true exactly when the summed display widths fit
within the budget: the raw byte-length shortcut never changes the
result. -/
theorem C7_width_le_iff (w : Int) (args : List (List Nat)) :
    _utf8_width_le w args = true ↔ (args.map utf8_width).sum ≤ w := by
  rw [utf8_width_le_spec]
  simp

/-- C9: `utf8_width` is total on malformed input: `b"\xff\xfe"` evaluates
to the finite integer 1 (the decoder stops after the failed 1-byte span,
whose consumed byte count is added in place of a codepoint width); in
general the width is the sum of per-unit contributions where an invalid
unit contributes its consumed byte count, and the result is always
bounded by the input's byte length. -/
theorem C9_width_total_malformed :
    utf8_width [0xff, 0xfe] = 1 ∧
    (∀ s : List Nat, utf8_width s =
      ((utf8_decode s).map (fun u =>
        match u.1 with
        | none => (u.2 : Int)
        | some c => _utf8_ucp_width c)).sum) ∧
    (∀ s : List Nat, utf8_width s ≤ (s.length : Int)) := by
  refine ⟨by decide, ?_, utf8_width_le_len⟩
  intro s
  rw [utf8_width_eq]
  rfl

/-- C10: the width of a byte string can be negative: every control
codepoint in [1, 31] or [0x7F, 0x9F] is classified with width -1, and on
the single escape byte `b"\x1b"` the total width is -1 < 0. -/
theorem C10_negative_width :
    utf8_width [0x1b] = -1 ∧ utf8_width [0x1b] < 0 ∧
    ∀ c : Nat, (1 ≤ c ∧ c ≤ 31) ∨ (0x7f ≤ c ∧ c ≤ 0x9f) → _utf8_ucp_width c = -1 := by
  refine ⟨by decide, by decide, ?_⟩
  intro c hc
  unfold _utf8_ucp_width
  rw [if_neg (by omega), if_pos (by omega)]

theorem C10_negative_width_witness :
    utf8_width [0x1b] = -1 ∧ utf8_width [0x1b] < 0 ∧ _utf8_ucp_width 27 = -1 :=
  ⟨C10_negative_width.1, C10_negative_width.2.1,
    C10_negative_width.2.2 27 (Or.inl (by decide))⟩

/-- C4: for every byte string and chop limit w ≥ 0, `utf8_width_chop`
returns a pair whose second component has display width equal to the
first component, and the first component is at most w. -/
theorem C4_chop_width (s : List Nat) (w : Int) (hw : 0 ≤ w) :
    utf8_width ((utf8_width_chop s (some w)).2) = (utf8_width_chop s (some w)).1 ∧
    (utf8_width_chop s (some w)).1 ≤ w :=
  utf8_width_chop_spec s w hw

theorem C4_chop_width_witness :
    utf8_width ((utf8_width_chop [97, 98, 99] (some 2)).2) =
      (utf8_width_chop [97, 98, 99] (some 2)).1 ∧
    (utf8_width_chop [97, 98, 99] (some 2)).1 ≤ 2 :=
  C4_chop_width [97, 98, 99] 2 (by decide)

/-- C5 counterexample: at s = b"\xff\x41" with chop limit 1 the chop
returns the whole 2-byte string, but the decode stream of s is the single
invalid unit (none, 1) — its partial byte sums are only 0 and 1, so the
returned bytes do not end at a sum of consumed byte counts of decode
units. -/
theorem C5_chop_boundary_counterexample :
    (utf8_width_chop [0xff, 65] (some 1)).2 = [0xff, 65] ∧
    ¬ ∃ k, (utf8_width_chop [0xff, 65] (some 1)).2 =
        ([0xff, 65] : List Nat).take (unitBytes ((utf8_decode [0xff, 65]).take k)) := by
  refine ⟨by decide, ?_⟩
  rintro ⟨k, hk⟩
  have hd : utf8_decode [0xff, 65] = [(none, 1)] := by decide
  rw [hd] at hk
  rcases k with _ | k
  · exact absurd hk (by decide)
  · rw [List.take_succ_cons, List.take_nil] at hk
    exact absurd hk (by decide)

/-- C5 amended: the bytes returned by `utf8_width_chop` are either the
whole input (when no truncation occurs, including the malformed-tail
case) or a prefix of it that ends exactly at a decode-unit boundary (a
sum of consumed byte counts of whole decode units); in particular a
multi-byte codepoint is never split. -/
theorem C5_chop_boundary_amended (s : List Nat) (w : Int) :
    (utf8_width_chop s (some w)).2 = s ∨
    ∃ k, (utf8_width_chop s (some w)).2 = s.take (unitBytes ((utf8_decode s).take k)) :=
  utf8_width_chop_boundary s w
/-- C1 counterexample: msg = b"a", fill = 3, suffix = b"S" (non-empty),
no chop, left-justified; the content width 1 is below the fill target 3,
and the code returns content ++ suffix ++ padding — not
content ++ padding ++ suffix as claimed. -/
theorem C1_fill_order_counterexample :
    utf8_width_fill [97] 3 none true [] [83] = [97, 83, 32, 32] ∧
    utf8_width_fill [97] 3 none true [] [83] ≠ [97, 32, 32, 83] := by decide

/-- C1 amended: when the (possibly chopped) content's width is below the
fill target, `utf8_width_fill` with left=true returns
prefix ++ content ++ suffix ++ padding-spaces: the suffix is adjacent to
the content and the padding is outermost on the right. -/
theorem C1_fill_left_order (msg : List Nat) (fill : Int) (chop : Option Int)
    (pfx sfx : List Nat) (h : (utf8_width_chop msg chop).1 < fill) :
    utf8_width_fill msg fill chop true pfx sfx =
      pfx ++ (utf8_width_chop msg chop).2 ++ sfx ++
        List.replicate (fill - (utf8_width_chop msg chop).1).toNat 32 := by
  unfold utf8_width_fill
  rw [if_neg (not_le.mpr h)]
  simp

theorem C1_fill_left_order_witness :
    utf8_width_fill [97] 3 none true [] [83] =
      [] ++ (utf8_width_chop [97] none).2 ++ [83] ++
        List.replicate ((3 : Int) - (utf8_width_chop [97] none).1).toNat 32 :=
  C1_fill_left_order [97] 3 none [] [83] (by decide)

/-- C3 counterexample: s = b"\xff", w = 3.  The fill pads to
b"\xff\x20\x20", but the decoder stops at the leading invalid byte, so
the width of the filled string is 1 while max(w, width(s)) = max(3, 1)
= 3. -/
theorem C3_fill_width_counterexample :
    utf8_width (utf8_width_fill [0xff] 3 none true [] []) = 1 ∧
    utf8_width (utf8_width_fill [0xff] 3 none true [] []) ≠
      max 3 (utf8_width [0xff]) := by decide

/-- C3 amended: for every byte string s that decodes without an invalid
unit and every target width w, filling with no chop limit and empty
prefix/suffix yields a string of width max(w, width(s)). -/
theorem C3_fill_width (s : List Nat)
    (hv : ∀ u ∈ utf8_decode s, u.1.isSome = true) (w : Int) :
    utf8_width (utf8_width_fill s w none true [] []) = max w (utf8_width s) := by
  unfold utf8_width_fill
  have hchop : utf8_width_chop s none = (utf8_width s, s) := rfl
  rw [hchop]
  by_cases h : utf8_width s ≥ w
  · rw [if_pos h]
    simp [max_eq_right h]
  · rw [if_neg h]
    simp only [if_true, List.nil_append]
    rw [List.append_nil]
    rw [utf8_width_append_spaces s _ hv]
    have hlt : utf8_width s < w := lt_of_not_ge h
    have : (((w - utf8_width s).toNat : Int)) = w - utf8_width s := by omega
    rw [this]
    omega

theorem C3_fill_width_witness :
    utf8_width (utf8_width_fill [97, 98] 5 none true [] []) =
      max 5 (utf8_width [97, 98]) :=
  C3_fill_width [97, 98] (by decide) 5

/-- C2 counterexample: on input "- item one\n  continued" with width 80
and empty indents, `utf8_text_wrap` does not return the single merged
line "- item one continued". -/
theorem C2_wrap_counterexample :
    utf8_text_wrap
        [45, 32, 105, 116, 101, 109, 32, 111, 110, 101, 10,
         32, 32, 99, 111, 110, 116, 105, 110, 117, 101, 100] 80 [] [] ≠
      [[45, 32, 105, 116, 101, 109, 32, 111, 110, 101, 32,
        99, 111, 110, 116, 105, 110, 117, 101, 100]] := by decide

/-- C2 amended: on input "- item one\n  continued" with width 80 and
empty indents, `utf8_text_wrap` returns the two lines "- item one" and
"  continued" unchanged: both input lines already fit within the width,
and line joining only ever happens while a previous line is being
wrapped (`wrap_last`), which a fitting line never sets. -/
theorem C2_wrap_two_lines :
    utf8_text_wrap
        [45, 32, 105, 116, 101, 109, 32, 111, 110, 101, 10,
         32, 32, 99, 111, 110, 116, 105, 110, 117, 101, 100] 80 [] [] =
      [[45, 32, 105, 116, 101, 109, 32, 111, 110, 101],
       [32, 32, 99, 111, 110, 116, 105, 110, 117, 101, 100]] := by decide
theorem roundtrip_aux :
    ∀ (k : Nat) (s : List Nat), s.length ≤ k → (∀ b ∈ s, b < 256) →
      (∀ u ∈ utf8_decode s, u.1.isSome = true) →
      ((utf8_decode s).map (fun u => utf8_encode (u.1.getD 0))).flatten = s ∧
      (∀ u ∈ utf8_decode s, (utf8_encode (u.1.getD 0)).length = u.2) := by
  intro k
  induction k with
  | zero =>
    intro s hk hb hv
    have hs : s = [] := by cases s <;> simp_all
    subst hs
    simp [utf8_decode_nil]
  | succ k ih =>
    intro s hk hb hv
    rcases utf8_decode_cases s with ⟨hs, hd⟩ |
      ⟨c, n, front, rest2, hs, hn, h1, hloc, _, henc⟩ |
      ⟨n, front, rest2, hs, hn, h1, hd, _⟩
    · subst hs
      simp [utf8_decode_nil]
    · have hdec : utf8_decode s = (some c, n) :: utf8_decode rest2 := by
        rw [hs]; exact hloc rest2
      have hlen : s.length = n + rest2.length := by
        rw [hs]; simp [hn.symm]
      have hbf : ∀ b ∈ front, b < 256 := by
        intro b hbm
        exact hb b (by rw [hs]; exact List.mem_append_left _ hbm)
      have hbr : ∀ b ∈ rest2, b < 256 := by
        intro b hbm
        exact hb b (by rw [hs]; exact List.mem_append_right _ hbm)
      have hvr : ∀ u ∈ utf8_decode rest2, u.1.isSome = true := by
        intro u hu
        exact hv u (by rw [hdec]; exact List.mem_cons_of_mem _ hu)
      obtain ⟨ihf, ihl⟩ := ih rest2 (by omega) hbr hvr
      have hef : utf8_encode c = front := henc hbf
      constructor
      · rw [hdec]
        simp only [List.map_cons, List.flatten_cons, Option.getD_some]
        rw [hef, ihf, hs]
      · intro u hu
        rw [hdec] at hu
        rcases List.mem_cons.mp hu with h | h
        · subst h
          simp only [Option.getD_some]
          rw [hef, hn]
        · exact ihl u h
    · exfalso
      have hmem : ((none : Option Nat), n) ∈ utf8_decode s := by
        rw [hd]; exact List.mem_singleton_self _
      have := hv _ hmem
      simp at this

/-- C6: decoding a byte sequence that produces no invalid unit and
re-encoding every decoded codepoint with the standard minimal UTF-8
encoding reproduces the original bytes exactly, and each unit's encoding
length equals the consumed byte count it reports. -/
theorem C6_roundtrip (s : List Nat) (hb : ∀ b ∈ s, b < 256)
    (hv : ∀ u ∈ utf8_decode s, u.1.isSome = true) :
    ((utf8_decode s).map (fun u => utf8_encode (u.1.getD 0))).flatten = s ∧
    ∀ u ∈ utf8_decode s, (utf8_encode (u.1.getD 0)).length = u.2 :=
  roundtrip_aux s.length s (Nat.le_refl _) hb hv

theorem C6_roundtrip_witness :
    ((utf8_decode [0xE2, 0x82, 0xAC, 0x61, 0xC3, 0xA9]).map
        (fun u => utf8_encode (u.1.getD 0))).flatten = [0xE2, 0x82, 0xAC, 0x61, 0xC3, 0xA9] ∧
    ∀ u ∈ utf8_decode [0xE2, 0x82, 0xAC, 0x61, 0xC3, 0xA9],
      (utf8_encode (u.1.getD 0)).length = u.2 :=
  C6_roundtrip [0xE2, 0x82, 0xAC, 0x61, 0xC3, 0xA9] (by decide) (by decide)
/-- Decoding the standard minimal encoding of a valid scalar (not a
surrogate, not U+FFFE/U+FFFF, at most U+10FFFF) yields exactly one valid
unit carrying that codepoint and consuming the whole encoding. -/
theorem decode_encode (c : Nat) (hmax : c ≤ 0x10FFFF)
    (hsur : c < 0xD800 ∨ 0xDFFF < c) (hf1 : c ≠ 0xFFFE) (hf2 : c ≠ 0xFFFF) :
    utf8_decode (utf8_encode c) = [(some c, (utf8_encode c).length)] := by
  rcases Nat.lt_or_ge c 0x80 with hr | hr1
  · have he : utf8_encode c = [c] := by
      unfold utf8_encode
      rw [if_pos hr]
    rw [he]
    rw [utf8_decode_ascii c [] hr, utf8_decode_nil]
    rfl
  · rcases Nat.lt_or_ge c 0x800 with hr | hr2
    · have he : utf8_encode c = [192 + c / 64, 128 + c % 64] := by
        unfold utf8_encode
        rw [if_neg (by omega), if_pos hr]
      have hb0 : 192 + c / 64 < 256 := by omega
      have hb1 : 128 + c % 64 < 256 := by omega
      have hd0 : 194 ≤ 192 + c / 64 ∧ 192 + c / 64 ≤ 223 := by omega
      have hna : ¬ (192 + c / 64 < 0x80) := by omega
      have hl2 : lead2 (192 + c / 64) = true :=
        (mask_lead2 _ hb0).mpr ⟨by omega, by omega⟩
      have hct : (128 + c % 64) &&& 0xc0 = 0x80 :=
        (mask_cont _ hb1).mpr ⟨by omega, by omega⟩
      have hov : ¬((192 + c / 64) &&& 0xfe = 0xc0) := by
        intro h
        have := (mask_c0c1 _ hb0).mp h
        omega
      have hbad : bad2 (192 + c / 64) (128 + c % 64) = false := by
        unfold bad2
        rw [Bool.or_eq_false_iff, bne_eq_false_iff_eq, beq_eq_false_iff_ne]
        exact ⟨hct, hov⟩
      have hcp : cp2 (192 + c / 64) (128 + c % 64) = c := by
        unfold cp2
        rw [mask_mod32 _ hb0, mask_mod64 _ hb1, lor_shift _ _ 6 (by omega)]
        have e1 : (192 + c / 64) % 32 = c / 64 := by omega
        have e2 : (128 + c % 64) % 64 = c % 64 := by omega
        rw [e1, e2]
        norm_num
        omega
      rw [he, utf8_decode_two_ok _ _ [] hna hl2 hbad, utf8_decode_nil, hcp]
      rfl
    · rcases Nat.lt_or_ge c 0x10000 with hr | hr3
      · have he : utf8_encode c = [224 + c / 4096, 128 + c / 64 % 64, 128 + c % 64] := by
          unfold utf8_encode
          rw [if_neg (by omega), if_neg (by omega), if_pos hr]
        have hb0 : 224 + c / 4096 < 256 := by omega
        have hb1 : 128 + c / 64 % 64 < 256 := by omega
        have hb2 : 128 + c % 64 < 256 := by omega
        have hna : ¬ (224 + c / 4096 < 0x80) := by omega
        have hl2 : lead2 (224 + c / 4096) = false := by
          rw [Bool.eq_false_iff]
          intro h
          have := (mask_lead2 _ hb0).mp h
          omega
        have hl3 : lead3 (224 + c / 4096) = true :=
          (mask_lead3 _ hb0).mpr ⟨by omega, by omega⟩
        have hct1 : (128 + c / 64 % 64) &&& 0xc0 = 0x80 :=
          (mask_cont _ hb1).mpr ⟨by omega, by omega⟩
        have hct2 : (128 + c % 64) &&& 0xc0 = 0x80 :=
          (mask_cont _ hb2).mpr ⟨by omega, by omega⟩
        have A1 : ((128 + c / 64 % 64) &&& 0xc0 != 0x80) = false := by
          rw [bne_eq_false_iff_eq]
          exact hct1
        have A2 : ((128 + c % 64) &&& 0xc0 != 0x80) = false := by
          rw [bne_eq_false_iff_eq]
          exact hct2
        have A3 : ((224 + c / 4096 : Nat) == 0xe0 &&
            (128 + c / 64 % 64) &&& 0xe0 == 0x80) = false := by
          rw [Bool.and_eq_false_iff]
          by_cases h0 : 224 + c / 4096 = 224
          · right
            rw [beq_eq_false_iff_ne]
            intro h
            have := (mask_e0_80 _ hb1).mp h
            omega
          · left
            rw [beq_eq_false_iff_ne]
            exact h0
        have A4 : ((224 + c / 4096 : Nat) == 0xed &&
            (128 + c / 64 % 64) &&& 0xe0 == 0xa0) = false := by
          rw [Bool.and_eq_false_iff]
          by_cases h0 : 224 + c / 4096 = 237
          · right
            rw [beq_eq_false_iff_ne]
            intro h
            have := (mask_e0_a0 _ hb1).mp h
            omega
          · left
            rw [beq_eq_false_iff_ne]
            exact h0
        have A5 : (((224 + c / 4096 : Nat) == 0xef && (128 + c / 64 % 64 : Nat) == 0xbf) &&
            (128 + c % 64) &&& 0xfe == 0xbe) = false := by
          rw [Bool.and_eq_false_iff]
          by_cases h0 : 224 + c / 4096 = 239 ∧ 128 + c / 64 % 64 = 191
          · right
            rw [beq_eq_false_iff_ne]
            intro h
            have := (mask_fe_be _ hb2).mp h
            omega
          · left
            rw [Bool.and_eq_false_iff]
            by_cases h1 : 224 + c / 4096 = 239
            · right
              rw [beq_eq_false_iff_ne]
              intro h2
              exact h0 ⟨h1, h2⟩
            · left
              rw [beq_eq_false_iff_ne]
              exact h1
        have hbad : bad3 (224 + c / 4096) (128 + c / 64 % 64) (128 + c % 64) = false := by
          unfold bad3
          rw [A1, A2, A3, A4, A5]
          rfl
        have hcp : cp3 (224 + c / 4096) (128 + c / 64 % 64) (128 + c % 64) = c := by
          unfold cp3
          rw [mask_mod16 _ hb0, mask_mod64 _ hb1, mask_mod64 _ hb2]
          have hy : ((128 + c / 64 % 64) % 64) <<< 6 = ((128 + c / 64 % 64) % 64) * 64 := by
            rw [Nat.shiftLeft_eq]
          rw [lor_shift _ _ 12 (by rw [hy]; omega)]
          have hre : ((224 + c / 4096) % 16) * 2 ^ 12 + ((128 + c / 64 % 64) % 64) <<< 6 =
              (((224 + c / 4096) % 16) * 64 + (128 + c / 64 % 64) % 64) <<< 6 := by
            rw [hy, Nat.shiftLeft_eq]
            ring
          rw [hre, lor_shift _ _ 6 (by omega)]
          have e0 : (224 + c / 4096) % 16 = c / 4096 := by omega
          have e1 : (128 + c / 64 % 64) % 64 = c / 64 % 64 := by omega
          have e2 : (128 + c % 64) % 64 = c % 64 := by omega
          rw [e0, e1, e2]
          norm_num
          omega
        rw [he, utf8_decode_three_ok _ _ _ [] hna hl2 hl3 hbad, utf8_decode_nil, hcp]
        rfl
      · have he : utf8_encode c =
            [240 + c / 262144, 128 + c / 4096 % 64, 128 + c / 64 % 64, 128 + c % 64] := by
          unfold utf8_encode
          rw [if_neg (by omega), if_neg (by omega), if_neg (by omega)]
        have hb0 : 240 + c / 262144 < 256 := by omega
        have hb1 : 128 + c / 4096 % 64 < 256 := by omega
        have hb2 : 128 + c / 64 % 64 < 256 := by omega
        have hb3 : 128 + c % 64 < 256 := by omega
        have hna : ¬ (240 + c / 262144 < 0x80) := by omega
        have hl2 : lead2 (240 + c / 262144) = false := by
          rw [Bool.eq_false_iff]
          intro h
          have := (mask_lead2 _ hb0).mp h
          omega
        have hl3 : lead3 (240 + c / 262144) = false := by
          rw [Bool.eq_false_iff]
          intro h
          have := (mask_lead3 _ hb0).mp h
          omega
        have hl4 : lead4 (240 + c / 262144) = true :=
          (mask_lead4 _ hb0).mpr ⟨by omega, by omega⟩
        have A1 : ((128 + c / 4096 % 64) &&& 0xc0 != 0x80) = false := by
          rw [bne_eq_false_iff_eq]
          exact (mask_cont _ hb1).mpr ⟨by omega, by omega⟩
        have A2 : ((128 + c / 64 % 64) &&& 0xc0 != 0x80) = false := by
          rw [bne_eq_false_iff_eq]
          exact (mask_cont _ hb2).mpr ⟨by omega, by omega⟩
        have A3 : ((128 + c % 64) &&& 0xc0 != 0x80) = false := by
          rw [bne_eq_false_iff_eq]
          exact (mask_cont _ hb3).mpr ⟨by omega, by omega⟩
        have A4 : ((240 + c / 262144 : Nat) == 0xf0 &&
            (128 + c / 4096 % 64) &&& 0xf0 == 0x80) = false := by
          rw [Bool.and_eq_false_iff]
          by_cases h0 : 240 + c / 262144 = 240
          · right
            rw [beq_eq_false_iff_ne]
            intro h
            have := (mask_f0_80 _ hb1).mp h
            omega
          · left
            rw [beq_eq_false_iff_ne]
            exact h0
        have A5 : ((240 + c / 262144 : Nat) == 0xf4 &&
            decide (128 + c / 4096 % 64 > 0x8f)) = false := by
          rw [Bool.and_eq_false_iff]
          by_cases h0 : 240 + c / 262144 = 244
          · right
            rw [decide_eq_false_iff_not]
            omega
          · left
            rw [beq_eq_false_iff_ne]
            exact h0
        have A6 : decide ((240 + c / 262144 : Nat) > 0xf4) = false := by
          rw [decide_eq_false_iff_not]
          omega
        have hbad : bad4 (240 + c / 262144) (128 + c / 4096 % 64)
            (128 + c / 64 % 64) (128 + c % 64) = false := by
          unfold bad4
          rw [A1, A2, A3, A4, A5, A6]
          rfl
        have hcp : cp4 (240 + c / 262144) (128 + c / 4096 % 64)
            (128 + c / 64 % 64) (128 + c % 64) = c := by
          unfold cp4
          rw [mask_mod8 _ hb0, mask_mod64 _ hb1, mask_mod64 _ hb2, mask_mod64 _ hb3]
          have hy : ((128 + c / 4096 % 64) % 64) <<< 12 =
              ((128 + c / 4096 % 64) % 64) * 4096 := by
            rw [Nat.shiftLeft_eq]
          have hz : ((128 + c / 64 % 64) % 64) <<< 6 = ((128 + c / 64 % 64) % 64) * 64 := by
            rw [Nat.shiftLeft_eq]
          rw [lor_shift _ _ 18 (by rw [hy]; omega)]
          have hre : ((240 + c / 262144) % 8) * 2 ^ 18 + ((128 + c / 4096 % 64) % 64) <<< 12 =
              (((240 + c / 262144) % 8) * 64 + (128 + c / 4096 % 64) % 64) <<< 12 := by
            rw [hy, Nat.shiftLeft_eq]
            ring
          rw [hre, lor_shift _ _ 12 (by rw [hz]; omega)]
          have hre2 : (((240 + c / 262144) % 8) * 64 + (128 + c / 4096 % 64) % 64) * 2 ^ 12 +
              ((128 + c / 64 % 64) % 64) <<< 6 =
              ((((240 + c / 262144) % 8) * 64 + (128 + c / 4096 % 64) % 64) * 64 +
                (128 + c / 64 % 64) % 64) <<< 6 := by
            rw [hz, Nat.shiftLeft_eq]
            ring
          rw [hre2, lor_shift _ _ 6 (by omega)]
          have e0 : (240 + c / 262144) % 8 = c / 262144 := by omega
          have e1 : (128 + c / 4096 % 64) % 64 = c / 4096 % 64 := by omega
          have e2 : (128 + c / 64 % 64) % 64 = c / 64 % 64 := by omega
          have e3 : (128 + c % 64) % 64 = c % 64 := by omega
          rw [e0, e1, e2, e3]
          norm_num
          omega
        rw [he, utf8_decode_four_ok _ _ _ _ [] hna hl2 hl3 hl4 hbad, utf8_decode_nil, hcp]
        rfl
set_option maxRecDepth 40000 in
theorem combining_bisearch_all :
    ∀ p ∈ _combining, ∀ d, d ≤ p.2 - p.1 →
      _utf8_bisearch (p.1 + d) _combining = true := by decide

theorem combining_range :
    ∀ p ∈ _combining, 0x300 ≤ p.1 ∧ p.1 ≤ p.2 ∧ p.2 ≤ 0xE01EF := by decide

theorem combining_no_surrogate :
    ∀ p ∈ _combining, p.2 < 0xD800 ∨ 0xDFFF < p.1 := by decide

theorem combining_no_fffe :
    ∀ p ∈ _combining, p.2 ≤ 0xFFFB ∨ 0x10A01 ≤ p.1 := by decide

/-- C8: every codepoint inside an interval of the combining table is
classified with width 0, and the width of its UTF-8 encoding is 0. -/
theorem C8_combining_zero_width (c lo hi : Nat) (hmem : (lo, hi) ∈ _combining)
    (hlo : lo ≤ c) (hhi : c ≤ hi) :
    _utf8_ucp_width c = 0 ∧ utf8_width (utf8_encode c) = 0 := by
  have hrange := combining_range (lo, hi) hmem
  simp only at hrange
  have hbi : _utf8_bisearch c _combining = true := by
    have h := combining_bisearch_all (lo, hi) hmem (c - lo) (by simp; omega)
    simp only at h
    rwa [show lo + (c - lo) = c by omega] at h
  have hw : _utf8_ucp_width c = 0 := by
    unfold _utf8_ucp_width
    rw [if_neg (by omega), if_neg (by omega), if_pos hbi]
  refine ⟨hw, ?_⟩
  have hsur := combining_no_surrogate (lo, hi) hmem
  simp only at hsur
  have hffe := combining_no_fffe (lo, hi) hmem
  simp only at hffe
  have hd := decode_encode c (by omega) (by omega) (by omega) (by omega)
  rw [utf8_width_eq, hd]
  simp [unitsWidth, unitContrib, hw]

theorem C8_combining_zero_width_witness :
    _utf8_ucp_width 0x300 = 0 ∧ utf8_width (utf8_encode 0x300) = 0 :=
  C8_combining_zero_width 0x300 0x300 0x36F (by decide) (by decide) (by decide)
